import Mathlib

/- Shallow embedding of the Ludo PNG mixer (png_mixer_cli.py).
   Machine integers are modelled as Nat.  Python float arithmetic in the
   probability and scaling computations is modelled as exact rational
   arithmetic over Rat, with int(x) for nonnegative x modelled as floor,
   hence Nat division on the scaling formulas.  Pillow bitmaps are modelled
   as total pixel functions over an abstract colour type together with
   their declared size; the Lanczos resampler is an abstract parameter.
   The stream of results of successive random.random() calls is modelled
   as an explicit function from call index to Rat. -/

/-- A decoded bitmap, as a total pixel function. -/
abbrev Img (C : Type) : Type := ℕ → ℕ → C

/-- A Pillow image handle together with its size, as returned by Image.new
    in create_page (png_mixer_cli.py line 162). -/
structure PageImage (C : Type) where
  width : ℕ
  height : ℕ
  pixel : Img C

/-- Mixer object state: the instance attributes set in PNGMixerCLI.__init__
    (png_mixer_cli.py lines 20-22) together with the output section of the
    config dictionary (lines 46-53).  The generation code reads only the
    instance attributes; the cfg_ fields model the persisted dictionary. -/
structure MixerState where
  output_width : ℕ
  output_height : ℕ
  images_per_row : ℕ
  cfg_width : ℕ
  cfg_height : ℕ
  cfg_images_per_row : ℕ
deriving DecidableEq

/-- The state produced by PNGMixerCLI.__init__: DIN A4 at 300 DPI and six
    images per row, mirrored into the default config dictionary. -/
def initial_mixer : MixerState :=
  { output_width := 2480
    output_height := 3508
    images_per_row := 6
    cfg_width := 2480
    cfg_height := 3508
    cfg_images_per_row := 6 }

/-- load_config (lines 87-106) updates the config dictionary with the
    output settings of the loaded JSON file; it writes no instance
    attribute. -/
def set_output_config (st : MixerState) (w h ipr : ℕ) : MixerState :=
  { st with cfg_width := w, cfg_height := h, cfg_images_per_row := ipr }

/-- scaled_width of create_page line 155 and the identical scaled cell
    width of calculate_pages_needed: int(500 * output_width / (images_per_row * 500)). -/
def scaled_width (st : MixerState) : ℕ :=
  500 * st.output_width / (st.images_per_row * 500)

/-- scaled_height of lines 139 and 156: the same formula, since the source
    cell is square (500 x 500). -/
def scaled_height (st : MixerState) : ℕ :=
  500 * st.output_width / (st.images_per_row * 500)

/-- rows_per_page of line 140 and rows_possible of line 158. -/
def rows_per_page (st : MixerState) : ℕ :=
  st.output_height / scaled_height st

/-- images_per_page of line 141 and total_slots of line 159. -/
def images_per_page (st : MixerState) : ℕ :=
  st.images_per_row * rows_per_page st

/-- The page-count formula of lines 144-145:
    (per_category + images_per_page - 1) // images_per_page. -/
def pages_needed (per_category ipp : ℕ) : ℕ :=
  (per_category + ipp - 1) / ipp

/-- calculate_pages_needed (lines 135-147): returns
    (pages for A, pages for B, images per page). -/
def calculate_pages_needed (st : MixerState) (total_images : ℕ) : ℕ × ℕ × ℕ :=
  (pages_needed (total_images / 2) (images_per_page st),
   pages_needed (total_images / 2) (images_per_page st),
   images_per_page st)

/-- The page slice of lines 249-251 and 266-268:
    images[page * ipp : min(page * ipp + ipp, len(images))]. -/
def page_slice {α : Type} (l : List α) (ipp p : ℕ) : List α :=
  (l.drop (p * ipp)).take ipp

/-- The three A-type rarity labels (config keys a_common, a_uncommon,
    a_legendary). -/
inductive ARarity
  | common
  | uncommon
  | legendary
deriving DecidableEq

/-- The two B-type variant labels (config keys b_normal, b_special). -/
inductive BVariant
  | normal
  | special
deriving DecidableEq

/-- Normalized common probability, a_probs of lines 202-206. -/
def a_prob_common (wc wu wl : ℚ) : ℚ := wc / (wc + wu + wl)

/-- Normalized uncommon probability. -/
def a_prob_uncommon (wc wu wl : ℚ) : ℚ := wu / (wc + wu + wl)

/-- Normalized legendary probability. -/
def a_prob_legendary (wc wu wl : ℚ) : ℚ := wl / (wc + wu + wl)

/-- One A-type draw, lines 225-231: compare the uniform value against the
    running cumulative normalized masses; the final else picks legendary. -/
def pickA (wc wu wl r : ℚ) : ARarity :=
  if r < a_prob_common wc wu wl then ARarity.common
  else if r < a_prob_common wc wu wl + a_prob_uncommon wc wu wl then ARarity.uncommon
  else ARarity.legendary

/-- One B-type draw, lines 238-241: a single Bernoulli test against
    b_special / 100 (line 209). -/
def pickB (b_special r : ℚ) : BVariant :=
  if r < b_special / 100 then BVariant.special else BVariant.normal

/-- The A-type generation loop of lines 222-231; slot i consumes the i-th
    value of the random stream. -/
def generate_a (wc wu wl : ℚ) (rng : ℕ → ℚ) (n : ℕ) : List ARarity :=
  (List.range n).map (fun i => pickA wc wu wl (rng i))

/-- The B-type generation loop of lines 235-241; it runs after the A loop,
    so slot i consumes the (off + i)-th value of the random stream. -/
def generate_b (b_special : ℚ) (rng : ℕ → ℚ) (off n : ℕ) : List BVariant :=
  (List.range n).map (fun i => pickB b_special (rng (off + i)))

/-- Lines 191-193: an odd total is bumped to the next even number and a
    warning is echoed; the Bool records whether the informational message
    was emitted. -/
def adjust_total (t : ℕ) : ℕ × Bool :=
  if t % 2 ≠ 0 then (t + 1, true) else (t, false)

/-- The message of the ClickException raised at line 200. -/
def a_zero_msg : String :=
  "A-type probabilities cannot all be zero!"

/-- The label-producing part of generate_duplex_images (lines 188-241):
    adjust the total, split it in half, check the A-type weight sum, then
    draw both label sequences from the stream of random.random() results. -/
def generate_duplex_labels (wc wu wl b_special : ℚ) (total : ℕ) (rng : ℕ → ℚ) :
    Except String (List ARarity × List BVariant) :=
  let t := (adjust_total total).1
  let n := t / 2
  if wc + wu + wl = 0 then Except.error a_zero_msg
  else Except.ok (generate_a wc wu wl rng n, generate_b b_special rng n n)

/-- Modelled from the spec wording, for refinement comparison with pickA:
    the cumulative-mass walk in the fixed order common, uncommon,
    legendary; the first label whose cumulative normalized mass exceeds r
    is chosen, and if no cumulative mass exceeds r the last label in the
    order is the fallback. -/
def assign_walk_spec (wc wu wl r : ℚ) : ARarity :=
  if a_prob_common wc wu wl > r then ARarity.common
  else if a_prob_common wc wu wl + a_prob_uncommon wc wu wl > r then ARarity.uncommon
  else if a_prob_common wc wu wl + a_prob_uncommon wc wu wl + a_prob_legendary wc wu wl > r then
    ARarity.legendary
  else ARarity.legendary

/-- Pointwise stream congruence for the A-type loop: only the first n
    stream values are consulted. -/
theorem generate_a_congr (wc wu wl : ℚ) (rng rng2 : ℕ → ℚ) (n : ℕ)
    (h : ∀ i, i < n → rng i = rng2 i) :
    generate_a wc wu wl rng n = generate_a wc wu wl rng2 n :=
  List.map_congr_left (fun i hi => by rw [h i (List.mem_range.mp hi)])

/-- Pointwise stream congruence for the B-type loop: only stream values
    with index below off + n are consulted. -/
theorem generate_b_congr (bs : ℚ) (rng rng2 : ℕ → ℚ) (off n : ℕ)
    (h : ∀ i, i < off + n → rng i = rng2 i) :
    generate_b bs rng off n = generate_b bs rng2 off n :=
  List.map_congr_left (fun i hi => by
    rw [h (off + i) (by have := List.mem_range.mp hi; omega)])

/-- C2: for every A-type weight set with positive sum and a stream of
    uniform values in the interval from 0 inclusive to 1 exclusive, the
    A-type generation loop agrees slot by slot with the cumulative-mass
    walk described by the spec, and when no cumulative mass exceeds the
    drawn value the draw falls back to legendary rather than failing. -/
theorem a_draw_is_cumulative_walk (wc wu wl : ℚ) (rng : ℕ → ℚ) (n : ℕ)
    (hwc : 0 ≤ wc) (hwu : 0 ≤ wu) (hwl : 0 ≤ wl) (hs : 0 < wc + wu + wl)
    (hr : ∀ i, 0 ≤ rng i ∧ rng i < 1) :
    generate_a wc wu wl rng n
        = (List.range n).map (fun i => assign_walk_spec wc wu wl (rng i)) ∧
    (∀ r, 1 ≤ r → pickA wc wu wl r = ARarity.legendary) := by
  constructor
  · unfold generate_a
    refine List.map_congr_left (fun i _ => ?_)
    unfold pickA assign_walk_spec
    simp only [gt_iff_lt, ite_self]
  · intro r hr1
    have h1 : a_prob_common wc wu wl ≤ 1 := by
      unfold a_prob_common
      rw [div_le_one hs]; linarith
    have h2 : a_prob_common wc wu wl + a_prob_uncommon wc wu wl ≤ 1 := by
      unfold a_prob_common a_prob_uncommon
      rw [div_add_div_same, div_le_one hs]; linarith
    unfold pickA
    rw [if_neg (by linarith), if_neg (by linarith)]

theorem a_draw_is_cumulative_walk_witness :
    (0 < (70 : ℚ) + 25 + 5) ∧
    generate_a 70 25 5 (fun _ => 1 / 2) 3
        = (List.range 3).map (fun i => assign_walk_spec 70 25 5 ((fun _ => (1 : ℚ) / 2) i)) :=
  ⟨by norm_num,
   (a_draw_is_cumulative_walk 70 25 5 (fun _ => 1 / 2) 3 (by norm_num) (by norm_num)
      (by norm_num) (by norm_num) (fun i => ⟨by norm_num, by norm_num⟩)).1⟩

/-- C5: an odd requested total is rounded up to the next even number, the
    informational flag is set, and each category receives exactly half of
    the adjusted total. -/
theorem odd_total_rounds_up (t : ℕ) (h : t % 2 = 1) :
    (adjust_total t).1 = t + 1 ∧
    (adjust_total t).2 = true ∧
    (adjust_total t).1 % 2 = 0 ∧
    t < (adjust_total t).1 ∧
    ∀ wc wu wl bs : ℚ, ∀ rng : ℕ → ℚ, wc + wu + wl ≠ 0 →
      ∃ la lb, generate_duplex_labels wc wu wl bs t rng = Except.ok (la, lb) ∧
        la.length = (t + 1) / 2 ∧ lb.length = (t + 1) / 2 ∧
        2 * ((t + 1) / 2) = t + 1 := by
  have ha : (adjust_total t).1 = t + 1 := by
    unfold adjust_total
    rw [if_pos (show ¬ t % 2 = 0 by omega)]
  refine ⟨ha, ?_, ?_, ?_, ?_⟩
  · unfold adjust_total
    rw [if_pos (show ¬ t % 2 = 0 by omega)]
  · rw [ha]; omega
  · rw [ha]; omega
  · intro wc wu wl bs rng hne
    refine ⟨generate_a wc wu wl rng ((t + 1) / 2),
            generate_b bs rng ((t + 1) / 2) ((t + 1) / 2), ?_, ?_, ?_, by omega⟩
    · simp only [generate_duplex_labels, ha]
      rw [if_neg hne]
    · simp [generate_a]
    · simp [generate_b]

theorem odd_total_rounds_up_witness :
    (99 % 2 = 1) ∧ (adjust_total 99).1 = 100 ∧ (adjust_total 99).2 = true ∧
    ∃ la lb, generate_duplex_labels 70 25 5 10 99 (fun _ => 0) = Except.ok (la, lb) ∧
      la.length = 50 ∧ lb.length = 50 ∧ 2 * ((99 + 1) / 2) = 99 + 1 :=
  ⟨rfl, (odd_total_rounds_up 99 rfl).1, (odd_total_rounds_up 99 rfl).2.1,
   (odd_total_rounds_up 99 rfl).2.2.2.2 70 25 5 10 (fun _ => 0) (by norm_num)⟩

/-- C6: when the A-type weights sum to zero the generator raises before
    drawing any image for either category, for every requested count; when
    the A-type sum is nonzero the run always succeeds, so no other weight
    check exists (the B-type special percentage is normalized by the
    constant 100 and has no zero-sum failure path). -/
theorem zero_sum_a_weights_fatal (wc wu wl bs : ℚ) (total : ℕ) (rng : ℕ → ℚ)
    (ht : 1 ≤ total) :
    (wc + wu + wl = 0 →
       generate_duplex_labels wc wu wl bs total rng = Except.error a_zero_msg) ∧
    (wc + wu + wl ≠ 0 →
       ∃ res, generate_duplex_labels wc wu wl bs total rng = Except.ok res) := by
  constructor
  · intro h
    simp only [generate_duplex_labels]
    rw [if_pos h]
  · intro h
    simp only [generate_duplex_labels]
    rw [if_neg h]
    exact ⟨_, rfl⟩

theorem zero_sum_a_weights_fatal_witness :
    (1 ≤ 1) ∧
    generate_duplex_labels 0 0 0 10 1 (fun _ => 0) = Except.error a_zero_msg ∧
    ∃ res, generate_duplex_labels 70 25 5 10 1 (fun _ => 0) = Except.ok res :=
  ⟨le_refl 1,
   (zero_sum_a_weights_fatal 0 0 0 10 1 (fun _ => 0) (le_refl 1)).1 (by norm_num),
   (zero_sum_a_weights_fatal 70 25 5 10 1 (fun _ => 0) (le_refl 1)).2 (by norm_num)⟩

/-- C9 amended: the label output is a deterministic function of the count,
    the weights, and the ambient random stream; only the first
    adjusted-total stream values are consulted. -/
theorem output_determined_by_consumed_stream (wc wu wl bs : ℚ) (total : ℕ)
    (rng rng2 : ℕ → ℚ)
    (h : ∀ i, i < (adjust_total total).1 → rng i = rng2 i) :
    generate_duplex_labels wc wu wl bs total rng
      = generate_duplex_labels wc wu wl bs total rng2 := by
  simp only [generate_duplex_labels]
  by_cases hz : wc + wu + wl = 0
  · rw [if_pos hz, if_pos hz]
  · rw [if_neg hz, if_neg hz]
    have hd : (adjust_total total).1 / 2 ≤ (adjust_total total).1 := Nat.div_le_self _ _
    have hd2 : (adjust_total total).1 / 2 * 2 ≤ (adjust_total total).1 :=
      Nat.div_mul_le_self _ _
    rw [generate_a_congr wc wu wl rng rng2 _ (fun i hi => h i (by omega)),
        generate_b_congr bs rng rng2 _ _ (fun i hi => h i (by omega))]

theorem output_determined_by_consumed_stream_witness :
    (∀ i, i < (adjust_total 2).1 →
        (fun _ => (0 : ℚ)) i = (fun j => if j < 10 then (0 : ℚ) else 1) i) ∧
    generate_duplex_labels 70 25 5 10 2 (fun _ => 0)
      = generate_duplex_labels 70 25 5 10 2 (fun j => if j < 10 then 0 else 1) := by
  have hag : ∀ i, i < (adjust_total 2).1 →
      (fun _ => (0 : ℚ)) i = (fun j => if j < 10 then (0 : ℚ) else 1) i := by
    intro i hi
    have h2 : (adjust_total 2).1 = 2 := rfl
    rw [h2] at hi
    simp only
    rw [if_pos (by omega)]
  exact ⟨hag,
    output_determined_by_consumed_stream 70 25 5 10 2 (fun _ => 0)
      (fun j => if j < 10 then 0 else 1) hag⟩

/-- C9 counterexample: with count and weights fixed and no random source
    parameter in the signature, two different states of the ambient random
    stream produce different label sequences, so the output is not a
    function of the explicitly supplied inputs alone. -/
theorem ambient_stream_changes_output :
    generate_duplex_labels 70 25 5 10 4 (fun _ => 0)
      ≠ generate_duplex_labels 70 25 5 10 4 (fun _ => 99 / 100) := by
  have h1 : generate_duplex_labels 70 25 5 10 4 (fun _ => 0)
      = Except.ok ([ARarity.common, ARarity.common],
                   [BVariant.special, BVariant.special]) := by
    norm_num [generate_duplex_labels, adjust_total, generate_a, generate_b, pickA, pickB,
      a_prob_common, a_prob_uncommon, List.range_succ]
  have h2 : generate_duplex_labels 70 25 5 10 4 (fun _ => 99 / 100)
      = Except.ok ([ARarity.legendary, ARarity.legendary],
                   [BVariant.normal, BVariant.normal]) := by
    norm_num [generate_duplex_labels, adjust_total, generate_a, generate_b, pickA, pickB,
      a_prob_common, a_prob_uncommon, List.range_succ]
  rw [h1, h2]
  simp

/-- C1: end-to-end scenario on the default state (canvas 2480 x 3508, cell
    500 x 500, six columns): scaled cell 413 x 413, eight rows per page,
    48 slots per page; a requested total of 200 gives 100 images per
    category, three pages per category, and the last page holds 4 images. -/
theorem layout_end_to_end :
    scaled_width initial_mixer = 413 ∧
    scaled_height initial_mixer = 413 ∧
    rows_per_page initial_mixer = 8 ∧
    images_per_page initial_mixer = 48 ∧
    calculate_pages_needed initial_mixer 200 = (3, 3, 48) ∧
    (adjust_total 200).1 / 2 = 100 ∧
    ∃ la lb, generate_duplex_labels 70 25 5 10 200 (fun _ => 0) = Except.ok (la, lb) ∧
      la.length = 100 ∧ lb.length = 100 ∧
      (page_slice la 48 0).length = 48 ∧
      (page_slice la 48 1).length = 48 ∧
      (page_slice la 48 2).length = 4 := by
  have hz : ¬ ((70 : ℚ) + 25 + 5 = 0) := by norm_num
  refine ⟨by decide, by decide, by decide, by decide, by decide, by decide,
    generate_a 70 25 5 (fun _ => 0) 100, generate_b 10 (fun _ => 0) 100 100,
    ?_, ?_, ?_, ?_, ?_, ?_⟩
  · simp only [generate_duplex_labels]
    rw [if_neg hz]
    rfl
  · simp [generate_a]
  · simp [generate_b]
  · simp [page_slice, generate_a]
  · simp [page_slice, generate_a]
  · simp [page_slice, generate_a]

/-- The page-count formula is sandwiched between the requested count and
    the count plus one page. -/
theorem pages_needed_bounds (tpc spp : ℕ) (htpc : 1 ≤ tpc) (hspp : 1 ≤ spp) :
    tpc ≤ pages_needed tpc spp * spp ∧ pages_needed tpc spp * spp < tpc + spp := by
  unfold pages_needed
  have h1 : (tpc + spp - 1) / spp * spp ≤ tpc + spp - 1 := Nat.div_mul_le_self _ _
  have hm : spp * ((tpc + spp - 1) / spp) + (tpc + spp - 1) % spp = tpc + spp - 1 :=
    Nat.div_add_mod _ _
  have hlt : (tpc + spp - 1) % spp < spp := Nat.mod_lt _ (by omega)
  have hc : spp * ((tpc + spp - 1) / spp) = (tpc + spp - 1) / spp * spp := Nat.mul_comm _ _
  omega

/-- At least one page is produced for a positive count. -/
theorem pages_needed_pos (tpc spp : ℕ) (htpc : 1 ≤ tpc) (hspp : 1 ≤ spp) :
    1 ≤ pages_needed tpc spp := by
  rcases Nat.eq_zero_or_pos (pages_needed tpc spp) with h | h
  · exfalso
    have hb := (pages_needed_bounds tpc spp htpc hspp).1
    rw [h] at hb
    simp at hb
    omega
  · exact h

/-- Concatenating the first k page slices recovers the first k pages of
    the source list. -/
theorem join_page_slices {α : Type} (l : List α) (spp k : ℕ) :
    ((List.range k).map (fun p => page_slice l spp p)).flatten = l.take (k * spp) := by
  induction k with
  | zero => simp
  | succ k ih =>
    rw [List.range_succ, List.map_append, List.flatten_append, ih]
    simp only [List.map_cons, List.map_nil, List.flatten_cons, List.flatten_nil,
      List.append_nil]
    rw [Nat.succ_mul, List.take_add]
    rfl

/-- C3: the pagination of a category with tpc images and spp slots per
    page produces exactly the ceiling of tpc / spp pages; every page but
    the last holds exactly spp images, the last holds the remainder, and
    the concatenation of the pages in order is the generated sequence. -/
theorem paginate_ceil {α : Type} (l : List α) (tpc spp : ℕ)
    (hl : l.length = tpc) (htpc : 1 ≤ tpc) (hspp : 1 ≤ spp) :
    (pages_needed tpc spp : ℤ) = ⌈(tpc : ℚ) / (spp : ℚ)⌉ ∧
    (∀ p, p + 1 < pages_needed tpc spp → (page_slice l spp p).length = spp) ∧
    (page_slice l spp (pages_needed tpc spp - 1)).length
        = tpc - (pages_needed tpc spp - 1) * spp ∧
    ((List.range (pages_needed tpc spp)).map (fun p => page_slice l spp p)).flatten = l := by
  obtain ⟨hub, hlb⟩ := pages_needed_bounds tpc spp htpc hspp
  have hpos := pages_needed_pos tpc spp htpc hspp
  have hsub : (pages_needed tpc spp - 1) * spp = pages_needed tpc spp * spp - spp :=
    Nat.sub_one_mul _ _
  have hge : spp ≤ pages_needed tpc spp * spp := by
    calc spp = 1 * spp := (Nat.one_mul spp).symm
    _ ≤ pages_needed tpc spp * spp := Nat.mul_le_mul_right spp hpos
  have hlast : (pages_needed tpc spp - 1) * spp < tpc := by omega
  have hsppQ : (0 : ℚ) < (spp : ℚ) := by
    have h0 : 0 < spp := hspp
    exact_mod_cast h0
  refine ⟨?_, ?_, ?_, ?_⟩
  · symm
    rw [Int.ceil_eq_iff]
    constructor
    · have hq : ((pages_needed tpc spp - 1 : ℕ) : ℚ) * (spp : ℚ) < (tpc : ℚ) := by
        exact_mod_cast hlast
      rw [Nat.cast_sub hpos] at hq
      push_cast at hq ⊢
      rw [lt_div_iff hsppQ]
      linarith
    · push_cast
      rw [div_le_iff hsppQ]
      exact_mod_cast hub
  · intro p hp
    have hmul : (p + 1) * spp ≤ (pages_needed tpc spp - 1) * spp :=
      Nat.mul_le_mul_right spp (by omega)
    have hsucc : (p + 1) * spp = p * spp + spp := Nat.succ_mul p spp
    have hfit : p * spp + spp ≤ tpc := by omega
    simp [page_slice, hl]
    omega
  · simp [page_slice, hl]
    omega
  · rw [join_page_slices]
    exact List.take_of_length_le (by omega)

theorem paginate_ceil_witness :
    (([0, 1, 2, 3, 4] : List ℕ).length = 5) ∧ (1 ≤ 5) ∧ (1 ≤ 2) ∧
    ((pages_needed 5 2 : ℤ) = ⌈(5 : ℚ) / (2 : ℚ)⌉ ∧
     (∀ p, p + 1 < pages_needed 5 2 →
        (page_slice ([0, 1, 2, 3, 4] : List ℕ) 2 p).length = 2) ∧
     (page_slice ([0, 1, 2, 3, 4] : List ℕ) 2 (pages_needed 5 2 - 1)).length
         = 5 - (pages_needed 5 2 - 1) * 2 ∧
     ((List.range (pages_needed 5 2)).map
        (fun p => page_slice ([0, 1, 2, 3, 4] : List ℕ) 2 p)).flatten
         = [0, 1, 2, 3, 4]) :=
  ⟨rfl, by decide, by decide,
   paginate_ceil [0, 1, 2, 3, 4] 5 2 rfl (by decide) (by decide)⟩

/-- One Image.paste call of line 177: a content rectangle given by its
    top-left pixel corner and size. -/
structure Placement (C : Type) where
  x0 : ℕ
  y0 : ℕ
  w : ℕ
  h : ℕ
  content : Img C

/-- The pixel region written by a placement. -/
def Placement.covers {C : Type} (pl : Placement C) (x y : ℕ) : Prop :=
  pl.x0 ≤ x ∧ x < pl.x0 + pl.w ∧ pl.y0 ≤ y ∧ y < pl.y0 + pl.h

instance {C : Type} (pl : Placement C) (x y : ℕ) : Decidable (pl.covers x y) := by
  unfold Placement.covers
  infer_instance

/-- Image.paste semantics: pixels inside the region come from the pasted
    content, pixels outside keep the base image. -/
def paste {C : Type} (base : Img C) (pl : Placement C) : Img C :=
  fun x y =>
    if pl.covers x y then pl.content (x - pl.x0) (y - pl.y0) else base x y

/-- The placement performed for slot i by lines 169-177: row-major cell
    coordinates, pixel origin (col * scaled_width, row * scaled_height),
    content resampled to the scaled cell size just before the paste. -/
def slot_placement {C : Type} (st : MixerState) (resize : Img C → ℕ → ℕ → Img C)
    (img : Img C) (i : ℕ) : Placement C :=
  { x0 := (i % st.images_per_row) * scaled_width st
    y0 := (i / st.images_per_row) * scaled_height st
    w := scaled_width st
    h := scaled_height st
    content := resize img (scaled_width st) (scaled_height st) }

/-- The pastes performed by the loop of lines 165-177: one per image, in
    list order, stopping at the slot capacity. -/
def page_placements {C : Type} (st : MixerState) (resize : Img C → ℕ → ℕ → Img C)
    (white : C) (images : List (Img C)) : List (Placement C) :=
  (List.range (min images.length (images_per_page st))).map
    (fun i => slot_placement st resize (images.getD i (fun _ _ => white)) i)

/-- create_page (lines 149-179): a white canvas of the output size, the
    row-major pastes, and the returned counts (len(images), total_slots). -/
def create_page {C : Type} (st : MixerState) (resize : Img C → ℕ → ℕ → Img C)
    (white : C) (images : List (Img C)) : PageImage C × ℕ × ℕ :=
  ({ width := st.output_width
     height := st.output_height
     pixel := (page_placements st resize white images).foldl paste (fun _ _ => white) },
   images.length, images_per_page st)

/-- Image.transpose(Image.FLIP_LEFT_RIGHT) of line 271: horizontal
    mirror. -/
def hflip {C : Type} (P : PageImage C) : PageImage C :=
  { width := P.width
    height := P.height
    pixel := fun x y => P.pixel (P.width - 1 - x) y }

/-- The A-page loop of lines 248-261: one composed page per page index,
    no mirror. -/
def a_page_list {C : Type} (st : MixerState) (resize : Img C → ℕ → ℕ → Img C)
    (white : C) (a_imgs : List (Img C)) (total : ℕ) : List (PageImage C) :=
  (List.range (calculate_pages_needed st total).1).map
    (fun p => (create_page st resize white
        (page_slice a_imgs (calculate_pages_needed st total).2.2 p)).1)

/-- The B-page loop of lines 265-279: one composed page per page index,
    each mirrored after composition. -/
def b_page_list {C : Type} (st : MixerState) (resize : Img C → ℕ → ℕ → Img C)
    (white : C) (b_imgs : List (Img C)) (total : ℕ) : List (PageImage C) :=
  (List.range (calculate_pages_needed st total).2.1).map
    (fun p => hflip (create_page st resize white
        (page_slice b_imgs (calculate_pages_needed st total).2.2 p)).1)

/-- An empty default page, used as the getD fallback when indexing page
    lists. -/
def blank_page {C : Type} (white : C) : PageImage C :=
  { width := 0, height := 0, pixel := fun _ _ => white }

/-- A small state used as a concrete fixture: canvas 100 x 100, one image
    per row, so one 100 x 100 slot per page. -/
def tiny_mixer : MixerState :=
  { output_width := 100
    output_height := 100
    images_per_row := 1
    cfg_width := 100
    cfg_height := 100
    cfg_images_per_row := 1 }

/-- A pixel outside every pasted region keeps the base value. -/
theorem foldl_paste_not_covered {C : Type} (ps : List (Placement C)) (base : Img C)
    (x y : ℕ) (h : ∀ pl ∈ ps, ¬ pl.covers x y) :
    ps.foldl paste base x y = base x y := by
  revert h
  induction ps generalizing base with
  | nil => intro h; rfl
  | cons q t ih =>
    intro h
    simp only [List.foldl_cons]
    rw [ih (paste base q) (fun pl hpl => h pl (List.mem_cons_of_mem q hpl))]
    unfold paste
    rw [if_neg (h q (List.mem_cons_self q t))]

/-- A pixel covered by exactly one placement of the list takes the value
    of that placement, whatever the base. -/
theorem foldl_paste_covered {C : Type} (ps : List (Placement C)) (base : Img C)
    (pl : Placement C) (x y : ℕ) (hmem : pl ∈ ps) (hcov : pl.covers x y)
    (huniq : ∀ q ∈ ps, q.covers x y → q = pl) :
    ps.foldl paste base x y = pl.content (x - pl.x0) (y - pl.y0) := by
  revert hmem huniq
  induction ps generalizing base with
  | nil => intro hmem _; exact absurd hmem (List.not_mem_nil pl)
  | cons q t ih =>
    intro hmem huniq
    simp only [List.foldl_cons]
    by_cases hq : ∃ q2 ∈ t, q2.covers x y
    · obtain ⟨q2, hq2m, hq2c⟩ := hq
      have he : q2 = pl := huniq q2 (List.mem_cons_of_mem q hq2m) hq2c
      subst he
      exact ih (paste base q) hq2m (fun r hr hrc => huniq r (List.mem_cons_of_mem q hr) hrc)
    · push_neg at hq
      rw [foldl_paste_not_covered t (paste base q) x y hq]
      have he : q = pl := by
        rcases List.mem_cons.mp hmem with h1 | h2
        · exact h1.symm
        · exact absurd hcov (hq pl h2)
      subst he
      unfold paste
      rw [if_pos hcov]

/-- A pixel at offset d inside the grid block of index a lies inside the
    grid block of index b only when a = b. -/
theorem block_index_eq (a b d sw : ℕ) (hd : d < sw)
    (h1 : b * sw ≤ a * sw + d) (h2 : a * sw + d < b * sw + sw) : a = b := by
  have hsw : 0 < sw := by omega
  have hda : (a * sw + d) / sw = a := by
    have hm := Nat.mul_add_div hsw a d
    rw [Nat.mul_comm sw a] at hm
    rw [hm, Nat.div_eq_of_lt hd]
    rfl
  have hdb : (a * sw + d) / sw = b := by
    refine Nat.div_eq_of_lt_le h1 ?_
    rw [Nat.succ_mul]
    exact h2
  rw [← hda, hdb]

/-- Distinct slots paste into disjoint pixel rectangles: a pixel strictly
    inside the rectangle of slot i is covered by the placement of slot j
    only when j = i. -/
theorem slot_cover_index_eq {C : Type} (st : MixerState)
    (resize : Img C → ℕ → ℕ → Img C) (img2 : Img C) (i j dx dy : ℕ)
    (hdx : dx < scaled_width st) (hdy : dy < scaled_height st)
    (hcov : (slot_placement st resize img2 j).covers
        ((i % st.images_per_row) * scaled_width st + dx)
        ((i / st.images_per_row) * scaled_height st + dy)) : j = i := by
  simp only [slot_placement, Placement.covers] at hcov
  obtain ⟨hx1, hx2, hy1, hy2⟩ := hcov
  have hcol : i % st.images_per_row = j % st.images_per_row :=
    block_index_eq _ _ dx _ hdx hx1 hx2
  have hrow : i / st.images_per_row = j / st.images_per_row :=
    block_index_eq _ _ dy _ hdy hy1 hy2
  have hi := Nat.div_add_mod i st.images_per_row
  have hj := Nat.div_add_mod j st.images_per_row
  calc j = st.images_per_row * (j / st.images_per_row) + j % st.images_per_row := hj.symm
    _ = st.images_per_row * (i / st.images_per_row) + i % st.images_per_row := by
        rw [← hrow, ← hcol]
    _ = i := hi

/-- C7: create_page composes in row-major order on a white canvas of the
    configured size: the pixel at offset (dx, dy) inside the cell of slot
    i shows the i-th input image resampled to the scaled cell size, and
    every pixel outside all pasted cells stays white. -/
theorem compose_row_major {C : Type} (st : MixerState)
    (resize : Img C → ℕ → ℕ → Img C) (white : C) (images : List (Img C))
    (i dx dy : ℕ) (hi : i < images.length) (hslot : i < images_per_page st)
    (hdx : dx < scaled_width st) (hdy : dy < scaled_height st) :
    (create_page st resize white images).1.width = st.output_width ∧
    (create_page st resize white images).1.height = st.output_height ∧
    (create_page st resize white images).1.pixel
        ((i % st.images_per_row) * scaled_width st + dx)
        ((i / st.images_per_row) * scaled_height st + dy)
      = resize (images.getD i (fun _ _ => white))
          (scaled_width st) (scaled_height st) dx dy ∧
    (∀ x y, (∀ pl ∈ page_placements st resize white images, ¬ pl.covers x y) →
        (create_page st resize white images).1.pixel x y = white) := by
  refine ⟨rfl, rfl, ?_, ?_⟩
  · have hmin : i < min images.length (images_per_page st) := by omega
    have hmem : slot_placement st resize (images.getD i (fun _ _ => white)) i
        ∈ page_placements st resize white images := by
      unfold page_placements
      exact List.mem_map.mpr ⟨i, List.mem_range.mpr hmin, rfl⟩
    have hcov : (slot_placement st resize (images.getD i (fun _ _ => white)) i).covers
        ((i % st.images_per_row) * scaled_width st + dx)
        ((i / st.images_per_row) * scaled_height st + dy) := by
      simp only [slot_placement, Placement.covers]
      omega
    have huniq : ∀ q ∈ page_placements st resize white images,
        q.covers ((i % st.images_per_row) * scaled_width st + dx)
          ((i / st.images_per_row) * scaled_height st + dy) →
        q = slot_placement st resize (images.getD i (fun _ _ => white)) i := by
      intro q hqmem hqcov
      unfold page_placements at hqmem
      obtain ⟨j, hjmem, hjeq⟩ := List.mem_map.mp hqmem
      have hji : j = i := by
        refine slot_cover_index_eq st resize
          (images.getD j (fun _ _ => white)) i j dx dy hdx hdy ?_
        rw [hjeq]
        exact hqcov
      rw [← hjeq, hji]
    have hfold := foldl_paste_covered (page_placements st resize white images)
        (fun _ _ => white) _ _ _ hmem hcov huniq
    simpa [create_page, slot_placement, Nat.add_sub_cancel_left] using hfold
  · intro x y hun
    exact foldl_paste_not_covered _ _ x y hun

theorem compose_row_major_witness :
    (0 < ([fun _ _ => 1] : List (Img ℕ)).length) ∧
    (0 < images_per_page tiny_mixer) ∧
    (0 < scaled_width tiny_mixer) ∧
    (0 < scaled_height tiny_mixer) ∧
    (create_page tiny_mixer (fun img _ _ => img) 0
        ([fun _ _ => 1] : List (Img ℕ))).1.pixel
        ((0 % tiny_mixer.images_per_row) * scaled_width tiny_mixer + 0)
        ((0 / tiny_mixer.images_per_row) * scaled_height tiny_mixer + 0)
      = (fun img _ _ => img)
          (([fun _ _ => 1] : List (Img ℕ)).getD 0 (fun _ _ => 0))
          (scaled_width tiny_mixer) (scaled_height tiny_mixer) 0 0 :=
  ⟨by decide, by decide, by decide, by decide,
   (compose_row_major tiny_mixer (fun img _ _ => img) 0 [fun _ _ => 1] 0 0 0
      (by decide) (by decide) (by decide) (by decide)).2.2.1⟩

/-- C10: when more images than slots are supplied, create_page composes
    only the first total_slots images, yet reports the full input length
    as the filled count, which then exceeds the reported slot count. -/
theorem create_page_overflow {C : Type} (st : MixerState)
    (resize : Img C → ℕ → ℕ → Img C) (white : C) (images : List (Img C))
    (h : images_per_page st < images.length) :
    (create_page st resize white images).2.1 = images.length ∧
    (create_page st resize white images).2.2 = images_per_page st ∧
    (create_page st resize white images).1
        = (create_page st resize white (images.take (images_per_page st))).1 ∧
    (create_page st resize white images).2.2 < (create_page st resize white images).2.1 := by
  have hpl : page_placements st resize white images
      = page_placements st resize white (images.take (images_per_page st)) := by
    unfold page_placements
    have hm1 : min images.length (images_per_page st) = images_per_page st :=
      Nat.min_eq_right (Nat.le_of_lt h)
    have hm2 : min (images.take (images_per_page st)).length (images_per_page st)
        = images_per_page st := by
      rw [List.length_take]
      omega
    rw [hm1, hm2]
    refine List.map_congr_left (fun i hi => ?_)
    have hilt : i < images_per_page st := List.mem_range.mp hi
    have hg : (images.take (images_per_page st)).getD i (fun _ _ => white)
        = images.getD i (fun _ _ => white) := by
      rw [List.getD_eq_getElem?_getD, List.getD_eq_getElem?_getD, List.getElem?_take,
        if_pos hilt]
    rw [hg]
  refine ⟨rfl, rfl, ?_, h⟩
  simp only [create_page]
  rw [hpl]

theorem create_page_overflow_witness :
    (images_per_page tiny_mixer < ([fun _ _ => 1, fun _ _ => 2] : List (Img ℕ)).length) ∧
    (create_page tiny_mixer (fun img _ _ => img) 0
        ([fun _ _ => 1, fun _ _ => 2] : List (Img ℕ))).2.2
      < (create_page tiny_mixer (fun img _ _ => img) 0
          ([fun _ _ => 1, fun _ _ => 2] : List (Img ℕ))).2.1 :=
  ⟨by decide,
   (create_page_overflow tiny_mixer (fun img _ _ => img) 0
      [fun _ _ => 1, fun _ _ => 2] (by decide)).2.2.2⟩

/-- getD on a mapped range below the bound picks the mapped value. -/
theorem getD_map_range {β : Type} (n p : ℕ) (f : ℕ → β) (d : β) (hp : p < n) :
    ((List.range n).map f).getD p d = f p := by
  rw [List.getD_eq_getElem?_getD, List.getElem?_map, List.getElem?_range hp]
  rfl

/-- C4: every page of the B category equals the horizontal mirror of its
    composed page, applied exactly once after composition (so mirroring a
    B page again recovers the unmirrored composition), while every page of
    the A category is the composed page with no mirror applied. -/
theorem mirror_exactly_b_pages {C : Type} (st : MixerState)
    (resize : Img C → ℕ → ℕ → Img C) (white : C)
    (a_imgs b_imgs : List (Img C)) (total p q x y : ℕ)
    (hp : p < (calculate_pages_needed st total).2.1)
    (hq : q < (calculate_pages_needed st total).1)
    (hx : x < st.output_width) :
    ((b_page_list st resize white b_imgs total).getD p (blank_page white)).pixel x y
        = (create_page st resize white
            (page_slice b_imgs (calculate_pages_needed st total).2.2 p)).1.pixel
            (st.output_width - 1 - x) y ∧
    (hflip ((b_page_list st resize white b_imgs total).getD p (blank_page white))).pixel x y
        = (create_page st resize white
            (page_slice b_imgs (calculate_pages_needed st total).2.2 p)).1.pixel x y ∧
    (a_page_list st resize white a_imgs total).getD q (blank_page white)
        = (create_page st resize white
            (page_slice a_imgs (calculate_pages_needed st total).2.2 q)).1 := by
  have hb : (b_page_list st resize white b_imgs total).getD p (blank_page white)
      = hflip (create_page st resize white
          (page_slice b_imgs (calculate_pages_needed st total).2.2 p)).1 := by
    unfold b_page_list
    exact getD_map_range _ p _ _ hp
  have ha : (a_page_list st resize white a_imgs total).getD q (blank_page white)
      = (create_page st resize white
          (page_slice a_imgs (calculate_pages_needed st total).2.2 q)).1 := by
    unfold a_page_list
    exact getD_map_range _ q _ _ hq
  refine ⟨?_, ?_, ha⟩
  · rw [hb]
    rfl
  · rw [hb]
    have harith : st.output_width - 1 - (st.output_width - 1 - x) = x :=
      Nat.sub_sub_self (by omega)
    show (create_page st resize white
        (page_slice b_imgs (calculate_pages_needed st total).2.2 p)).1.pixel
        (st.output_width - 1 - (st.output_width - 1 - x)) y = _
    rw [harith]

theorem mirror_exactly_b_pages_witness :
    (0 < (calculate_pages_needed tiny_mixer 2).2.1) ∧
    (0 < (calculate_pages_needed tiny_mixer 2).1) ∧
    (0 < tiny_mixer.output_width) ∧
    (a_page_list tiny_mixer (fun img _ _ => img) 0
        ([fun _ _ => 3] : List (Img ℕ)) 2).getD 0 (blank_page 0)
      = (create_page tiny_mixer (fun img _ _ => img) 0
          (page_slice ([fun _ _ => 3] : List (Img ℕ))
            (calculate_pages_needed tiny_mixer 2).2.2 0)).1 :=
  ⟨by decide, by decide, by decide,
   (mirror_exactly_b_pages tiny_mixer (fun img _ _ => img) 0
      [fun _ _ => 3] [fun _ _ => 4] 2 0 0 0 0
      (by decide) (by decide) (by decide)).2.2⟩

/-- C8 evidence: the layout and page geometry come from the instance
    attributes fixed in __init__; updating the width, height and
    images_per_row entries of the config output section changes the
    stored configuration values but leaves the computed layout and the
    produced page size unchanged. -/
theorem layout_ignores_output_config :
    (∀ w h ipr total, calculate_pages_needed (set_output_config initial_mixer w h ipr) total
        = calculate_pages_needed initial_mixer total) ∧
    (set_output_config initial_mixer 1000 1000 3).cfg_width = 1000 ∧
    (set_output_config initial_mixer 1000 1000 3).cfg_height = 1000 ∧
    (set_output_config initial_mixer 1000 1000 3).cfg_images_per_row = 3 ∧
    scaled_width (set_output_config initial_mixer 1000 1000 3) = 413 ∧
    images_per_page (set_output_config initial_mixer 1000 1000 3) = 48 ∧
    (create_page (set_output_config initial_mixer 1000 1000 3)
        (fun img _ _ => img) 0 ([] : List (Img ℕ))).1.width = 2480 ∧
    (create_page (set_output_config initial_mixer 1000 1000 3)
        (fun img _ _ => img) 0 ([] : List (Img ℕ))).1.height = 3508 :=
  ⟨fun _ _ _ _ => rfl, rfl, rfl, rfl, by decide, by decide, rfl, rfl⟩
